import Mathlib

/-!
Verification of the day-bucketing / range-query core of the package
drop-off tracking application (files `app.py` and `app2.py`).

Time is modelled in microseconds (the smallest unit Python `datetime`
represents).  A UTC instant is a `Nat`: microseconds since
0001-01-01T00:00:00 UTC (the epoch of Python's proleptic-Gregorian
ordinal).  A naive local ("wall clock") datetime is likewise a `Nat` on
the wall scale.  Calendar dates are `(year, month, day)` triples,
linearised by `toOrdinal`, which mirrors Python's `date.toordinal`
(0001-01-01 has ordinal 1).

The display zone is `pytz.timezone('America/Los_Angeles')`.  The zone
database itself is an external library, not part of the repository;
following the specification it is modelled as UTC-8 standard / UTC-7
daylight with transitions at 02:00 local standard time on the second
Sunday of March and 02:00 local daylight time on the first Sunday of
November (the rule in force for the dates the specification discusses).
`pytz.localize` is modelled with its default `is_dst=False` resolution.
-/

set_option maxRecDepth 100000

def usPerSec : Nat := 1000000
def usPerMin : Nat := 60 * usPerSec
def usPerHour : Nat := 60 * usPerMin
def usPerDay : Nat := 24 * usPerHour

/-- Leap year test of the proleptic Gregorian calendar (as in Python's
`calendar.isleap`, used by `datetime.date`). -/
def isLeap (y : Nat) : Bool :=
  (y % 4 == 0 && y % 100 != 0) || (y % 400 == 0)

def yearLen (y : Nat) : Nat := if isLeap y then 366 else 365

/-- Days strictly before year `y` (year 1 is the first year, as in
Python's `date.toordinal`): `dBY y + 1` is the ordinal of Jan 1 of `y`. -/
def dBY (y : Nat) : Nat :=
  365 * (y - 1) + (y - 1) / 4 - (y - 1) / 100 + (y - 1) / 400

/-- Cumulative days before month `m` in a non-leap year. -/
def dBMbase : Nat → Nat
  | 1 => 0
  | 2 => 31
  | 3 => 59
  | 4 => 90
  | 5 => 120
  | 6 => 151
  | 7 => 181
  | 8 => 212
  | 9 => 243
  | 10 => 273
  | 11 => 304
  | 12 => 334
  | _ => 0

/-- Days before month `m` of year `y`. -/
def dBM (y m : Nat) : Nat :=
  dBMbase m + (if 3 ≤ m ∧ isLeap y then 1 else 0)

/-- Python's `date(y, m, d).toordinal()`: 0001-01-01 ↦ 1. -/
def toOrdinal (y m d : Nat) : Nat := dBY y + dBM y m + d

/-- Days in month `m` of year `y` (as validated by `datetime.date`). -/
def daysInMonth (y m : Nat) : Nat :=
  if m = 2 then (if isLeap y then 29 else 28)
  else if m = 4 ∨ m = 6 ∨ m = 9 ∨ m = 11 then 30
  else 31

/-- Fuel-driven year lookup: starting at year `y` with `d` days already
elapsed since Jan 1 of `y`, step forward year by year. -/
def yearOfAux : Nat → Nat → Nat → Nat
  | 0, y, _ => y
  | (fuel + 1), y, d => if d < yearLen y then y else yearOfAux fuel (y + 1) (d - yearLen y)

/-- The year containing ordinal `o` (for `1 ≤ o`): start from the
underestimate `(o - 1) / 366 + 1` and walk forward. -/
def yearOf (o : Nat) : Nat :=
  yearOfAux ((o - 1) / 365 + 2) ((o - 1) / 366 + 1)
    ((o - 1) - dBY ((o - 1) / 366 + 1))

/-- Ordinal of the second Sunday of March of year `y` — the US DST
"spring forward" date (0001-01-01 was a Monday, so ordinal `o` falls on
weekday `(o - 1) % 7` with Monday = 0, Sunday = 6). -/
def springOrd (y : Nat) : Nat :=
  toOrdinal y 3 1 + (6 + 7 - (toOrdinal y 3 1 - 1) % 7) % 7 + 7

/-- Ordinal of the first Sunday of November of year `y` — the US DST
"fall back" date. -/
def fallOrd (y : Nat) : Nat :=
  toOrdinal y 11 1 + (6 + 7 - (toOrdinal y 11 1 - 1) % 7) % 7

/-- Whether the *wall-clock* time `tod` (µs after midnight) of the day
with ordinal `o` is daylight-saving time in America/Los_Angeles under
pytz's `is_dst=False` resolution: DST wall times run from 03:00 on the
spring-forward Sunday (the 02:00–03:00 gap resolves to standard time)
up to, but not including, 01:00 on the fall-back Sunday (the ambiguous
01:00–02:00 hour also resolves to standard time). -/
def localDstB (o tod : Nat) : Bool :=
  (decide (springOrd (yearOf o) < o) ||
    (decide (springOrd (yearOf o) = o) && decide (3 * usPerHour ≤ tod))) &&
  (decide (o < fallOrd (yearOf o)) ||
    (decide (o = fallOrd (yearOf o)) && decide (tod < usPerHour)))

/-- Wall-clock µs value of midnight of the day with ordinal `o`. -/
def wallMidnight (o : Nat) : Nat := (o - 1) * usPerDay

/-- DST test on an absolute wall-clock µs value. -/
def localDst (w : Nat) : Bool := localDstB (w / usPerDay + 1) (w % usPerDay)

/-- Width of the display-zone UTC offset (west of Greenwich) chosen by
`pytz.localize` for the wall-clock time `w`, in µs. -/
def localOffWest (w : Nat) : Nat :=
  if localDst w then 7 * usPerHour else 8 * usPerHour

/-- `DISPLAY_TIMEZONE.localize(naive).astimezone(timezone.utc)` as a map
from wall-clock µs to UTC µs: add back the UTC offset in force (8 h
standard, 7 h daylight). -/
def pytzLocalizeToUtc (w : Nat) : Nat := w + localOffWest w

/-- Whether the UTC instant `t` falls in the daylight-saving period:
from 10:00 UTC of the spring-forward Sunday (02:00 PST) up to 09:00 UTC
of the fall-back Sunday (02:00 PDT). -/
def utcDst (t : Nat) : Bool :=
  (decide (springOrd (yearOf (t / usPerDay + 1)) < t / usPerDay + 1) ||
    (decide (springOrd (yearOf (t / usPerDay + 1)) = t / usPerDay + 1) &&
      decide (10 * usPerHour ≤ t % usPerDay))) &&
  (decide (t / usPerDay + 1 < fallOrd (yearOf (t / usPerDay + 1))) ||
    (decide (t / usPerDay + 1 = fallOrd (yearOf (t / usPerDay + 1))) &&
      decide (t % usPerDay < 9 * usPerHour)))

/-- Width of the display-zone UTC offset (west of Greenwich) at UTC
instant `t`, in µs. -/
def offWestAt (t : Nat) : Nat :=
  if utcDst t then 7 * usPerHour else 8 * usPerHour

/-- `utc_dt.astimezone(DISPLAY_TIMEZONE)` as a map from UTC µs to
wall-clock µs. -/
def toDisplayWall (t : Nat) : Nat := t - offWestAt t

/-- UTC instant of a calendar date plus time of day. -/
def mkUtc (y m d hh mi ss us : Nat) : Nat :=
  (toOrdinal y m d - 1) * usPerDay + ((hh * 60 + mi) * 60 + ss) * usPerSec + us

/-! ## Parsing of `YYYY-MM-DD` strings

`datetime.strptime(s, '%Y-%m-%d')` as used by both
`get_dropoffs_in_range` routes: CPython's `_strptime` matches `%Y`
against exactly four digits, `%m` against `1[0-2]|0[1-9]|[1-9]`, `%d`
against `3[01]|[12]\d|0[1-9]|[1-9]`, each literal `-` exactly, with no
trailing characters allowed; the `datetime` constructor then rejects
out-of-range days and year 0.  Failure raises `ValueError`, modelled as
`none`.  Strings are modelled as `List Char`. -/

def digVal (c : Char) : Nat := c.toNat - 48

/-- The `%m` pattern `1[0-2]|0[1-9]|[1-9]` applied to a whole chunk. -/
def parseMonthChunk : List Char → Option Nat
  | [c] => if '1' ≤ c ∧ c ≤ '9' then some (digVal c) else none
  | [c1, c2] =>
    if c1 = '0' ∧ '1' ≤ c2 ∧ c2 ≤ '9' then some (digVal c2)
    else if c1 = '1' ∧ '0' ≤ c2 ∧ c2 ≤ '2' then some (10 + digVal c2)
    else none
  | _ => none

/-- The `%d` pattern `3[01]|[12]\d|0[1-9]|[1-9]` applied to a whole chunk. -/
def parseDayChunk : List Char → Option Nat
  | [c] => if '1' ≤ c ∧ c ≤ '9' then some (digVal c) else none
  | [c1, c2] =>
    if c1 = '0' ∧ '1' ≤ c2 ∧ c2 ≤ '9' then some (digVal c2)
    else if (c1 = '1' ∨ c1 = '2') ∧ '0' ≤ c2 ∧ c2 ≤ '9' then some (digVal c1 * 10 + digVal c2)
    else if c1 = '3' ∧ '0' ≤ c2 ∧ c2 ≤ '1' then some (30 + digVal c2)
    else none
  | _ => none

/-- Continuation of `parseDate` after the year and its trailing `-`:
`mcs` is the month chunk (the characters before the next `-`), `rest2`
what remains (which must be `-` followed by the day chunk). -/
def parseTail (y : Nat) (mcs rest2 : List Char) : Option (Nat × Nat × Nat) :=
  match rest2 with
  | dash2 :: dcs =>
    if dash2 = '-' then
      match parseMonthChunk mcs, parseDayChunk dcs with
      | some m, some dd =>
        if 1 ≤ y ∧ dd ≤ daysInMonth y m then some (y, m, dd) else none
      | _, _ => none
    else none
  | [] => none

/-- `datetime.strptime(s, '%Y-%m-%d')` followed by construction of a
`datetime.date`; `none` models the raised `ValueError`. -/
def parseDate (s : List Char) : Option (Nat × Nat × Nat) :=
  match s with
  | (a :: b :: c :: d :: dash :: rest) =>
    if dash = '-' ∧ ('0' ≤ a ∧ a ≤ '9') ∧ ('0' ≤ b ∧ b ≤ '9') ∧ ('0' ≤ c ∧ c ≤ '9') ∧
        ('0' ≤ d ∧ d ≤ '9') then
      parseTail (((digVal a * 10 + digVal b) * 10 + digVal c) * 10 + digVal d)
        (rest.takeWhile (fun ch => ch ≠ '-')) (rest.dropWhile (fun ch => ch ≠ '-'))
    else none
  | _ => none

/-! ## Records and the record store

A persisted `Tracking` row: integer primary key, owner key, tracking
number string, UTC timestamp (`Instant`, in µs). -/

structure Rec where
  rid : Nat
  uid : Nat
  num : List Char
  ts : Nat
deriving DecidableEq

/-- Stable insertion of `x` into `l`, before the first element whose
timestamp is not smaller: models the placement performed by Python's
stable `sorted(..., key=lambda t: t.timestamp)`. -/
def insertTs (x : Rec) : List Rec → List Rec
  | [] => [x]
  | y :: ys => if y.ts < x.ts then y :: insertTs x ys else x :: y :: ys

/-- Stable sort by ascending timestamp (Python `sorted` is stable). -/
def sortByTs : List Rec → List Rec
  | [] => []
  | x :: xs => insertTs x (sortByTs xs)

/-- Insertion into a descending list, used for Python's
`sorted(items, reverse=True)` over the distinct day keys. -/
def insertDescNat (x : Nat) : List Nat → List Nat
  | [] => [x]
  | y :: ys => if x < y then y :: insertDescNat x ys else x :: y :: ys

def sortDescNat : List Nat → List Nat
  | [] => []
  | x :: xs => insertDescNat x (sortDescNat xs)

/-! ## The dashboard day-bucketer

`dashboard` (app.py 262–293, identically app2.py 255–291) groups the
user's records into a `defaultdict(list)` keyed by
`timestamp.astimezone(DISPLAY_TIMEZONE).date()` (app2 stores the
display-converted value, giving the same key), sorts the `(date, list)`
pairs by date descending, and sorts each day's list by timestamp
ascending with Python's stable `sorted`.  A local calendar date is
identified with its 0-based day index `ordinal - 1`. -/

def localDateOf (t : Nat) : Nat := toDisplayWall t / usPerDay

/-- The distinct local dates of `rs`, sorted descending. -/
def datesDesc (rs : List Rec) : List Nat :=
  sortDescNat (rs.map (fun r => localDateOf r.ts)).dedup

/-- The grouped dashboard output: for each local date (descending), the
day's records sorted by timestamp ascending; each group accumulates in
input order before the sort, as the `defaultdict` append loop does. -/
def dashboardBuckets (rs : List Rec) : List (Nat × List Rec) :=
  (datesDesc rs).map
    (fun d => (d, sortByTs (rs.filter (fun r => localDateOf r.ts == d))))

/-! ## The custom column type `UTCDateTime`

A Python `datetime` value is either naive (no `tzinfo`) or aware; an
aware value is a wall-clock reading paired with its zone's UTC offset
(here: west-of-UTC width in µs, `0` for `timezone.utc`).  The absolute
instant an aware value denotes is `wall + offWest`. -/

structure AwareDT where
  wall : Nat
  offWest : Nat
deriving DecidableEq

def instOf (d : AwareDT) : Nat := d.wall + d.offWest

/-- `value.astimezone(timezone.utc)`. -/
def astimezoneUtc (d : AwareDT) : AwareDT := ⟨instOf d, 0⟩

/-- `value.astimezone(DISPLAY_TIMEZONE)`. -/
def astimezoneDisplay (d : AwareDT) : AwareDT :=
  ⟨instOf d - offWestAt (instOf d), offWestAt (instOf d)⟩

inductive PyDT where
  | naive (wall : Nat)
  | aware (d : AwareDT)
deriving DecidableEq

/-- `UTCDateTime.process_bind_param` (app.py 71–77, identically
app2.py 113–121): naive values are stamped as UTC, aware values are
converted to UTC; `None` passes through. -/
def process_bind_param : Option PyDT → Option PyDT
  | none => none
  | some (.naive w) => some (.aware ⟨w, 0⟩)
  | some (.aware d) => some (.aware (astimezoneUtc d))

/-- `UTCDateTime.process_result_value` of app.py (79–84): naive values
from the DB are stamped as UTC, aware ones converted to UTC. -/
def process_result_value : Option PyDT → Option PyDT
  | none => none
  | some (.naive w) => some (.aware ⟨w, 0⟩)
  | some (.aware d) => some (.aware (astimezoneUtc d))

/-- `UTCDateTime.process_result_value` of app2.py (123–130): naive
values are stamped as UTC and the result is converted to
`DISPLAY_TIMEZONE` on retrieval. -/
def process_result_value2 : Option PyDT → Option PyDT
  | none => none
  | some (.naive w) => some (.aware (astimezoneDisplay ⟨w, 0⟩))
  | some (.aware d) => some (.aware (astimezoneDisplay d))

/-! ## The range-query routes

`/api/get-dropoffs-in-range` in app.py (597–640) and app2.py (552–597).
Both interpret the two submitted strings as display-zone dates.  The
start bound is local midnight of the start date in UTC.  app.py's end
bound localizes `end midnight + 1 day - 1 second`; app2.py's localizes
`end midnight` and adds `999999` µs to the UTC result. -/

def appStartUtc (o : Nat) : Nat := pytzLocalizeToUtc (wallMidnight o)

/-- app.py end bound: `localize(endDate 23:59:59) → UTC`. -/
def appEndUtc (o : Nat) : Nat :=
  pytzLocalizeToUtc (wallMidnight o + (usPerDay - usPerSec))

/-- app2.py end bound: `localize(endDate 00:00:00) → UTC` plus
`timedelta(microseconds=999999)`. -/
def app2EndUtc (o : Nat) : Nat := pytzLocalizeToUtc (wallMidnight o) + 999999

/-- The SQL filter of both routes: owner scoping plus the inclusive
UTC interval `[su, eu]`. -/
def rangeFilter (su eu uidReq : Nat) (r : Rec) : Bool :=
  r.uid == uidReq && (decide (su ≤ r.ts) && decide (r.ts ≤ eu))

/-- `request.form.get` truthiness test: `None` and `""` are missing. -/
def presentStr : Option (List Char) → Bool
  | none => false
  | some s => !s.isEmpty

inductive RouteResult where
  /-- 400 "Start and end dates are required." -/
  | errMissing : RouteResult
  /-- 400 "Invalid date format. Please use YYYY-MM-DD." — produced
  before any range is computed or any record fetched. -/
  | errInvalid : RouteResult
  /-- 200 response built from the resolved UTC bounds and the filtered
  records ordered by timestamp ascending. -/
  | ok (startUtc endUtc : Nat) (trackings : List Rec) : RouteResult
deriving DecidableEq

/-- `get_dropoffs_in_range` of app.py (597–640). -/
def get_dropoffs_in_range (db : List Rec) (uidReq : Nat)
    (startStr endStr : Option (List Char)) : RouteResult :=
  if !(presentStr startStr && presentStr endStr) then .errMissing
  else
    match parseDate (startStr.getD []), parseDate (endStr.getD []) with
    | some (y1, m1, d1), some (y2, m2, d2) =>
      let su := appStartUtc (toOrdinal y1 m1 d1)
      let eu := appEndUtc (toOrdinal y2 m2 d2)
      .ok su eu (sortByTs (db.filter (rangeFilter su eu uidReq)))
    | _, _ => .errInvalid

/-- `get_dropoffs_in_range` of app2.py (552–597); only the end bound
differs. -/
def get_dropoffs_in_range2 (db : List Rec) (uidReq : Nat)
    (startStr endStr : Option (List Char)) : RouteResult :=
  if !(presentStr startStr && presentStr endStr) then .errMissing
  else
    match parseDate (startStr.getD []), parseDate (endStr.getD []) with
    | some (y1, m1, d1), some (y2, m2, d2) =>
      let su := appStartUtc (toOrdinal y1 m1 d1)
      let eu := app2EndUtc (toOrdinal y2 m2 d2)
      .ok su eu (sortByTs (db.filter (rangeFilter su eu uidReq)))
    | _, _ => .errInvalid

/-! ## `add_tracking` (app2.py 297–337) and `delete_tracking` -/

/-- The cleaning step of app2's `add_tracking`: strip every non-digit
character (`filter(str.isdigit, ...)`, on the ASCII repertoire), then
keep only the last 12 digits when more remain
(`cleaned_number[-12:]`). -/
def cleanTracking (s : List Char) : List Char :=
  if 12 < (s.filter Char.isDigit).length then
    (s.filter Char.isDigit).drop ((s.filter Char.isDigit).length - 12)
  else s.filter Char.isDigit

/-- app2's `add_tracking` route: returns the value persisted, or `none`
when nothing is stored (absent/empty input, or a duplicate of an
existing tracking number of the same user). -/
def add_tracking (input : Option (List Char)) (existing : List (List Char)) :
    Option (List Char) :=
  match input with
  | none => none
  | some s =>
    if s.isEmpty then none
    else
      let t := cleanTracking s
      if existing.contains t then none else some t

/-- Delete the first list entry satisfying `p` (the row returned by
`.first()`). -/
def deleteFirst (p : Rec → Bool) : List Rec → List Rec
  | [] => []
  | r :: rest => if p r then rest else r :: deleteFirst p rest

/-- `delete_tracking` (app.py 318–328, identically app2.py 339–350):
look up the record with the given id owned by the requester; delete it
when found (second component `true`, the success flash), otherwise
leave the store unchanged and flash "not found or no permission"
(second component `false`). -/
def delete_tracking (store : List Rec) (uidReq tid : Nat) : List Rec × Bool :=
  match store.find? (fun r => r.rid == tid && r.uid == uidReq) with
  | some _ => (deleteFirst (fun r => r.rid == tid && r.uid == uidReq) store, true)
  | none => (store, false)

/-- The view of a stored value as the dashboard and the range routes
read it back: aware values are projected to the display zone. -/
def displayOfStored : Option PyDT → Option PyDT
  | none => none
  | some (.naive w) => some (.naive w)
  | some (.aware d) => some (.aware (astimezoneDisplay d))

/-- Whether a stored value read back is a timezone-aware datetime whose
UTC offset is zero. -/
def isUtcAware : Option PyDT → Bool
  | some (.aware d) => d.offWest == 0
  | _ => false

-- Model sanity examples on the specification's scenarios.
example : toOrdinal 2024 3 10 = 738955 := by decide
example : springOrd 2024 = toOrdinal 2024 3 10 := by decide
example : fallOrd 2024 = toOrdinal 2024 11 3 := by decide
example : yearOf (toOrdinal 2024 3 10) = 2024 := by decide
example : pytzLocalizeToUtc (wallMidnight (toOrdinal 2024 3 10)) = mkUtc 2024 3 10 8 0 0 0 := by decide
example : pytzLocalizeToUtc (wallMidnight (toOrdinal 2024 3 10) + (usPerDay - usPerSec)) = mkUtc 2024 3 11 6 59 59 0 := by decide
example : toDisplayWall (mkUtc 2024 6 1 6 59 59 0) = wallMidnight (toOrdinal 2024 5 31) + (23 * usPerHour + 59 * usPerMin + 59 * usPerSec) := by decide

/-! ## Calendar lemmas -/

theorem yearLen_ge (y : Nat) : 365 ≤ yearLen y := by
  unfold yearLen; split <;> omega

theorem yearLen_le (y : Nat) : yearLen y ≤ 366 := by
  unfold yearLen; split <;> omega

theorem yearLen_of_leap {y : Nat} (h : isLeap y = true) : yearLen y = 366 := by
  simp [yearLen, h]

theorem yearLen_of_not_leap {y : Nat} (h : isLeap y = false) : yearLen y = 365 := by
  simp [yearLen, h]

set_option maxHeartbeats 3000000 in
theorem dBY_succ {y : Nat} (h : 1 ≤ y) : dBY (y + 1) = dBY y + yearLen y := by
  have hiff : (isLeap y = true) ↔ (y % 4 = 0 ∧ y % 100 ≠ 0 ∨ y % 400 = 0) := by
    simp [isLeap]
  cases hleap : isLeap y with
  | true =>
    have hc := hiff.mp hleap
    rw [yearLen_of_leap hleap]
    unfold dBY
    omega
  | false =>
    have hc : ¬(y % 4 = 0 ∧ y % 100 ≠ 0 ∨ y % 400 = 0) := by
      rw [← hiff]; simp [hleap]
    rw [yearLen_of_not_leap hleap]
    unfold dBY
    omega

theorem dBY_le_succ (y : Nat) : dBY y ≤ dBY (y + 1) := by
  cases y with
  | zero => simp [dBY]
  | succ n =>
    rw [@dBY_succ (n + 1) (by omega)]
    omega

theorem dBY_mono {a b : Nat} (h : a ≤ b) : dBY a ≤ dBY b := by
  induction b with
  | zero =>
    have hz : a = 0 := by omega
    rw [hz]
  | succ n ih =>
    rcases Nat.lt_or_ge a (n + 1) with hlt | hge
    · exact Nat.le_trans (ih (by omega)) (dBY_le_succ n)
    · have hz : a = n + 1 := by omega
      rw [hz]

theorem yearOfAux_spec (fuel : Nat) : ∀ y d, 1 ≤ y → d + dBY y < dBY (y + fuel) →
    1 ≤ yearOfAux fuel y d ∧ dBY (yearOfAux fuel y d) ≤ d + dBY y ∧
      d + dBY y < dBY (yearOfAux fuel y d + 1) := by
  induction fuel with
  | zero =>
    intro y d hy hf
    simp only [Nat.add_zero] at hf
    omega
  | succ fuel ih =>
    intro y d hy hf
    unfold yearOfAux
    split
    next hlt =>
      refine ⟨hy, Nat.le_add_left _ _, ?_⟩
      rw [dBY_succ hy]
      omega
    next hlt =>
      have h365 := yearLen_ge y
      have hsucc := dBY_succ hy
      have hh : (d - yearLen y) + dBY (y + 1) < dBY ((y + 1) + fuel) := by
        have harg : (y + 1) + fuel = y + (fuel + 1) := by omega
        rw [harg, hsucc]
        omega
      have hres := ih (y + 1) (d - yearLen y) (by omega) hh
      have heq : (d - yearLen y) + dBY (y + 1) = d + dBY y := by
        rw [hsucc]; omega
      rw [heq] at hres
      exact hres

theorem yearOf_spec {o : Nat} (h : 1 ≤ o) :
    1 ≤ yearOf o ∧ dBY (yearOf o) < o ∧ o ≤ dBY (yearOf o + 1) := by
  have hq : dBY ((o - 1) / 366 + 1) ≤ o - 1 := by
    unfold dBY; omega
  have hlow : 365 * ((((o - 1) / 366 + 1) + ((o - 1) / 365 + 2)) - 1) ≤
      dBY (((o - 1) / 366 + 1) + ((o - 1) / 365 + 2)) := by
    unfold dBY; omega
  have hf : ((o - 1) - dBY ((o - 1) / 366 + 1)) + dBY ((o - 1) / 366 + 1) <
      dBY (((o - 1) / 366 + 1) + ((o - 1) / 365 + 2)) := by
    omega
  have hres := yearOfAux_spec ((o - 1) / 365 + 2) ((o - 1) / 366 + 1)
    ((o - 1) - dBY ((o - 1) / 366 + 1)) (by omega) hf
  unfold yearOf
  omega

theorem yearOf_unique {o a : Nat} (ha : 1 ≤ a) (h1 : dBY a < o) (h2 : o ≤ dBY (a + 1)) :
    yearOf o = a := by
  have ho : 1 ≤ o := by omega
  obtain ⟨hy1, hy2, hy3⟩ := yearOf_spec ho
  rcases Nat.lt_trichotomy (yearOf o) a with hlt | heq | hgt
  · have hstep : yearOf o + 1 ≤ a := by omega
    have := dBY_mono hstep
    omega
  · exact heq
  · have hstep : a + 1 ≤ yearOf o := by omega
    have := dBY_mono hstep
    omega

theorem fallOrd_le (y : Nat) : fallOrd y ≤ dBY y + 312 := by
  have h11 : dBMbase 11 = 304 := rfl
  unfold fallOrd toOrdinal dBM
  rw [h11]
  split <;> omega

theorem springOrd_ge (y : Nat) : dBY y + 67 ≤ springOrd y := by
  have h3 : dBMbase 3 = 59 := rfl
  unfold springOrd toOrdinal dBM
  rw [h3]
  split <;> omega

/-- No DST transition separates the last second of a local day from the
following local midnight: the transitions sit at wall times 01:00 and
03:00.  This is what makes app.py's `+ 1 day - 1 second` end bound land
strictly inside the following day's range start for inverted ranges. -/
theorem localDst_day_boundary {e : Nat} (he : 1 ≤ e) :
    localDstB e (usPerDay - usPerSec) = localDstB (e + 1) 0 := by
  have hnum : usPerHour ≤ usPerDay - usPerSec ∧ 3 * usPerHour ≤ usPerDay - usPerSec ∧
      0 < usPerHour := by
    unfold usPerDay usPerHour usPerMin usPerSec; omega
  obtain ⟨hy1, hy2, hy3⟩ := yearOf_spec he
  rcases Nat.lt_or_ge e (dBY (yearOf e + 1)) with hcase | hcase
  · have hnext : yearOf (e + 1) = yearOf e := yearOf_unique hy1 (by omega) (by omega)
    rw [Bool.eq_iff_iff]
    simp only [localDstB, Bool.and_eq_true, Bool.or_eq_true, decide_eq_true_eq, hnext]
    omega
  · have he2 : e = dBY (yearOf e + 1) := by omega
    have hsuccY1 := @dBY_succ (yearOf e + 1) (by omega)
    have hylY1 := yearLen_ge (yearOf e + 1)
    have hnext : yearOf (e + 1) = yearOf e + 1 := by
      apply yearOf_unique (by omega) (by omega)
      omega
    have hfall := fallOrd_le (yearOf e)
    have hspring := springOrd_ge (yearOf e + 1)
    have hsuccY := @dBY_succ (yearOf e) hy1
    have hyl := yearLen_ge (yearOf e)
    rw [Bool.eq_iff_iff]
    simp only [localDstB, Bool.and_eq_true, Bool.or_eq_true, decide_eq_true_eq, hnext]
    omega

theorem localDst_wall {o tod : Nat} (ho : 1 ≤ o) (htod : tod < usPerDay) :
    localDst (wallMidnight o + tod) = localDstB o tod := by
  have hdiv : (wallMidnight o + tod) / usPerDay + 1 = o := by
    unfold wallMidnight usPerDay usPerHour usPerMin usPerSec at *
    omega
  have hmod : (wallMidnight o + tod) % usPerDay = tod := by
    unfold wallMidnight usPerDay usPerHour usPerMin usPerSec at *
    omega
  unfold localDst
  rw [hdiv, hmod]

theorem localDst_midnight {o : Nat} (ho : 1 ≤ o) :
    localDst (wallMidnight o) = localDstB o 0 := by
  have h0 : (0 : Nat) < usPerDay := by
    unfold usPerDay usPerHour usPerMin usPerSec; omega
  have := @localDst_wall o 0 ho h0
  simpa using this

theorem localOffWest_bounds (w : Nat) :
    7 * usPerHour ≤ localOffWest w ∧ localOffWest w ≤ 8 * usPerHour := by
  unfold localOffWest
  have : 0 < usPerHour := by unfold usPerHour usPerMin usPerSec; omega
  split <;> omega

theorem offWestAt_bounds (t : Nat) :
    7 * usPerHour ≤ offWestAt t ∧ offWestAt t ≤ 8 * usPerHour := by
  unfold offWestAt
  have : 0 < usPerHour := by unfold usPerHour usPerMin usPerSec; omega
  split <;> omega

/-! ## Ordering of the resolved UTC bounds -/

theorem appStart_le_appEnd {o1 o2 : Nat} (h1 : 1 ≤ o1) (hle : o1 ≤ o2) :
    appStartUtc o1 ≤ appEndUtc o2 := by
  unfold appStartUtc appEndUtc pytzLocalizeToUtc
  obtain ⟨ha1, ha2⟩ := localOffWest_bounds (wallMidnight o1)
  obtain ⟨hb1, hb2⟩ := localOffWest_bounds (wallMidnight o2 + (usPerDay - usPerSec))
  simp only [wallMidnight, usPerDay, usPerHour, usPerMin, usPerSec] at *
  omega

theorem appStart_le_app2End {o1 o2 : Nat} (h1 : 1 ≤ o1) (hle : o1 ≤ o2) :
    appStartUtc o1 ≤ app2EndUtc o2 := by
  rcases Nat.eq_or_lt_of_le hle with heq | hlt
  · rw [heq]
    unfold app2EndUtc appStartUtc
    omega
  · unfold appStartUtc app2EndUtc pytzLocalizeToUtc
    obtain ⟨ha1, ha2⟩ := localOffWest_bounds (wallMidnight o1)
    obtain ⟨hb1, hb2⟩ := localOffWest_bounds (wallMidnight o2)
    simp only [wallMidnight, usPerDay, usPerHour, usPerMin, usPerSec] at *
    omega

theorem appStart_pos (o : Nat) : 1 ≤ appStartUtc o := by
  unfold appStartUtc pytzLocalizeToUtc
  obtain ⟨ha1, ha2⟩ := localOffWest_bounds (wallMidnight o)
  simp only [usPerHour, usPerMin, usPerSec] at ha1
  omega

/-- app.py's end bound for the *earlier* day lies strictly below the
start bound of the *later* day, for every inverted range. -/
theorem appEnd_lt_appStart {o1 o2 : Nat} (h2 : 1 ≤ o2) (hlt : o2 < o1) :
    appEndUtc o2 < appStartUtc o1 := by
  have htod : usPerDay - usPerSec < usPerDay := by
    simp only [usPerDay, usPerHour, usPerMin, usPerSec]
    omega
  rcases Nat.eq_or_lt_of_le hlt with heq | hlt2
  · subst heq
    unfold appEndUtc appStartUtc pytzLocalizeToUtc
    have hoff : localOffWest (wallMidnight o2 + (usPerDay - usPerSec)) =
        localOffWest (wallMidnight (o2 + 1)) := by
      unfold localOffWest
      rw [localDst_wall h2 htod, localDst_midnight (by omega), localDst_day_boundary h2]
    rw [hoff]
    generalize localOffWest (wallMidnight (o2 + 1)) = L
    simp only [wallMidnight, usPerDay, usPerHour, usPerMin, usPerSec]
    omega
  · unfold appEndUtc appStartUtc pytzLocalizeToUtc
    obtain ⟨ha1, ha2⟩ := localOffWest_bounds (wallMidnight o2 + (usPerDay - usPerSec))
    obtain ⟨hb1, hb2⟩ := localOffWest_bounds (wallMidnight o1)
    simp only [wallMidnight, usPerDay, usPerHour, usPerMin, usPerSec] at *
    omega

/-- Likewise for app2.py's end bound. -/
theorem app2End_lt_appStart {o1 o2 : Nat} (h2 : 1 ≤ o2) (hlt : o2 < o1) :
    app2EndUtc o2 < appStartUtc o1 := by
  unfold app2EndUtc appStartUtc pytzLocalizeToUtc
  obtain ⟨ha1, ha2⟩ := localOffWest_bounds (wallMidnight o2)
  obtain ⟨hb1, hb2⟩ := localOffWest_bounds (wallMidnight o1)
  simp only [wallMidnight, usPerDay, usPerHour, usPerMin, usPerSec] at *
  omega

/-! ## Sorting lemmas -/

theorem mem_insertTs {x a : Rec} {l : List Rec} : a ∈ insertTs x l ↔ a = x ∨ a ∈ l := by
  induction l with
  | nil => simp [insertTs]
  | cons y ys ih =>
    unfold insertTs
    split
    · simp only [List.mem_cons, ih]
      tauto
    · simp only [List.mem_cons]

theorem pairwise_insertTs {x : Rec} {l : List Rec}
    (h : l.Pairwise (fun a b => a.ts ≤ b.ts)) :
    (insertTs x l).Pairwise (fun a b => a.ts ≤ b.ts) := by
  induction l with
  | nil => simp [insertTs]
  | cons y ys ih =>
    rcases List.pairwise_cons.mp h with ⟨hy, hys⟩
    unfold insertTs
    split
    next hlt =>
      refine List.pairwise_cons.mpr ⟨?_, ih hys⟩
      intro a ha
      rcases mem_insertTs.mp ha with rfl | ha'
      · omega
      · exact hy a ha'
    next hge =>
      refine List.pairwise_cons.mpr ⟨?_, h⟩
      intro a ha
      rcases List.mem_cons.mp ha with rfl | ha'
      · omega
      · have := hy a ha'
        omega

theorem sortByTs_pairwise (l : List Rec) :
    (sortByTs l).Pairwise (fun a b => a.ts ≤ b.ts) := by
  induction l with
  | nil => simp [sortByTs]
  | cons x xs ih =>
    unfold sortByTs
    exact pairwise_insertTs ih

theorem filter_insertTs (c : Nat) (x : Rec) (l : List Rec) :
    (insertTs x l).filter (fun r => r.ts == c) =
      if x.ts = c then x :: l.filter (fun r => r.ts == c)
      else l.filter (fun r => r.ts == c) := by
  induction l with
  | nil =>
    by_cases hx : x.ts = c <;> simp [insertTs, List.filter_cons, hx]
  | cons y ys ih =>
    unfold insertTs
    split
    next hlt =>
      by_cases hx : x.ts = c
      · have hy : ¬(y.ts = c) := by omega
        simp [List.filter_cons, hx, hy, ih]
      · by_cases hy : y.ts = c <;> simp [List.filter_cons, hx, hy, ih]
    next hge =>
      by_cases hx : x.ts = c <;> by_cases hy : y.ts = c <;>
        simp [List.filter_cons, hx, hy]

/-- Python's `sorted` is stable: the subsequence of records carrying any
fixed timestamp is untouched by the sort. -/
theorem sortByTs_filter (c : Nat) (l : List Rec) :
    (sortByTs l).filter (fun r => r.ts == c) = l.filter (fun r => r.ts == c) := by
  induction l with
  | nil => rfl
  | cons x xs ih =>
    unfold sortByTs
    rw [filter_insertTs]
    by_cases hx : x.ts = c <;> simp [List.filter_cons, hx, ih]

theorem insertDescNat_perm (x : Nat) (l : List Nat) : List.Perm (insertDescNat x l) (x :: l) := by
  induction l with
  | nil => exact List.Perm.refl _
  | cons y ys ih =>
    unfold insertDescNat
    split
    · exact (ih.cons y).trans (List.Perm.swap x y ys)
    · exact List.Perm.refl _

theorem sortDescNat_perm (l : List Nat) : List.Perm (sortDescNat l) l := by
  induction l with
  | nil => exact List.Perm.refl _
  | cons x xs ih =>
    unfold sortDescNat
    exact (insertDescNat_perm x (sortDescNat xs)).trans (ih.cons x)

theorem pairwise_insertDescNat {x : Nat} {l : List Nat}
    (h : l.Pairwise (fun a b => b ≤ a)) :
    (insertDescNat x l).Pairwise (fun a b => b ≤ a) := by
  induction l with
  | nil => simp [insertDescNat]
  | cons y ys ih =>
    rcases List.pairwise_cons.mp h with ⟨hy, hys⟩
    unfold insertDescNat
    split
    next hlt =>
      refine List.pairwise_cons.mpr ⟨?_, ih hys⟩
      intro a ha
      have ha2 := (insertDescNat_perm x ys).mem_iff.mp ha
      rcases List.mem_cons.mp ha2 with rfl | ha'
      · omega
      · exact hy a ha'
    next hge =>
      refine List.pairwise_cons.mpr ⟨?_, h⟩
      intro a ha
      rcases List.mem_cons.mp ha with rfl | ha'
      · omega
      · have := hy a ha'
        omega

theorem sortDescNat_pairwise (l : List Nat) :
    (sortDescNat l).Pairwise (fun a b => b ≤ a) := by
  induction l with
  | nil => simp [sortDescNat]
  | cons x xs ih =>
    unfold sortDescNat
    exact pairwise_insertDescNat ih

theorem sortDescNat_strictDesc {l : List Nat} (h : l.Nodup) :
    (sortDescNat l).Pairwise (fun a b => b < a) := by
  have hp := sortDescNat_pairwise l
  have hn : (sortDescNat l).Nodup := (sortDescNat_perm l).nodup_iff.mpr h
  have hpn := List.Pairwise.and hp hn
  exact hpn.imp (fun hab => by omega)

/-! ## Parser lemmas -/

theorem parseDayChunk_pos {l : List Char} {d : Nat} (h : parseDayChunk l = some d) :
    1 ≤ d := by
  rcases l with _ | ⟨c1, _ | ⟨c2, _ | ⟨c3, t⟩⟩⟩
  · simp [parseDayChunk] at h
  · simp only [parseDayChunk] at h
    split at h
    next hc =>
      have h1 : 49 ≤ c1.toNat := hc.1
      simp only [Option.some.injEq] at h
      subst h
      unfold digVal
      omega
    next => simp at h
  · simp only [parseDayChunk] at h
    split at h
    next hc =>
      have h1 : 49 ≤ c2.toNat := hc.2.1
      simp only [Option.some.injEq] at h
      subst h
      unfold digVal
      omega
    next =>
      split at h
      next hc =>
        simp only [Option.some.injEq] at h
        subst h
        rcases hc.1 with rfl | rfl
        · have hv : digVal '1' = 1 := rfl
          omega
        · have hv : digVal '2' = 2 := rfl
          omega
      next =>
        split at h
        next hc =>
          simp only [Option.some.injEq] at h
          omega
        next => simp at h
  · simp [parseDayChunk] at h

theorem parseDate_ne_nil {s : List Char} {v : Nat × Nat × Nat}
    (h : parseDate s = some v) : s ≠ [] := by
  intro he
  subst he
  simp [parseDate] at h

theorem parseTail_day_pos {y : Nat} {mcs rest2 : List Char} {a b c : Nat}
    (h : parseTail y mcs rest2 = some (a, b, c)) : 1 ≤ c := by
  unfold parseTail at h
  split at h
  · split at h
    · split at h
      next m dd hm hd =>
        split at h
        · simp only [Option.some.injEq, Prod.mk.injEq] at h
          obtain ⟨-, -, h3⟩ := h
          subst h3
          exact parseDayChunk_pos hd
        · simp at h
      next => simp at h
    · simp at h
  · simp at h

theorem parseDate_day_pos {s : List Char} {y m d : Nat}
    (h : parseDate s = some (y, m, d)) : 1 ≤ d := by
  unfold parseDate at h
  split at h
  · split at h
    · exact parseTail_day_pos h
    · simp at h
  · simp at h

theorem toOrdinal_pos_of_day_pos {y m d : Nat} (h : 1 ≤ d) : 1 ≤ toOrdinal y m d := by
  unfold toOrdinal
  omega

theorem presentStr_of_ne_nil {s : List Char} (h : s ≠ []) : presentStr (some s) = true := by
  cases s with
  | nil => exact absurd rfl h
  | cons a t => rfl

/-! ## Route reduction lemmas -/

theorem get_dropoffs_in_range_eq {db : List Rec} {uid : Nat} {ss es : List Char}
    {y1 m1 d1 y2 m2 d2 : Nat}
    (hs : parseDate ss = some (y1, m1, d1)) (he : parseDate es = some (y2, m2, d2)) :
    get_dropoffs_in_range db uid (some ss) (some es) =
      .ok (appStartUtc (toOrdinal y1 m1 d1)) (appEndUtc (toOrdinal y2 m2 d2))
        (sortByTs (db.filter (rangeFilter (appStartUtc (toOrdinal y1 m1 d1))
          (appEndUtc (toOrdinal y2 m2 d2)) uid))) := by
  have hp1 := presentStr_of_ne_nil (parseDate_ne_nil hs)
  have hp2 := presentStr_of_ne_nil (parseDate_ne_nil he)
  unfold get_dropoffs_in_range
  rw [hp1, hp2]
  simp only [Bool.and_self, Bool.not_true, Bool.false_eq_true, if_false, Option.getD_some,
    hs, he]

theorem get_dropoffs_in_range2_eq {db : List Rec} {uid : Nat} {ss es : List Char}
    {y1 m1 d1 y2 m2 d2 : Nat}
    (hs : parseDate ss = some (y1, m1, d1)) (he : parseDate es = some (y2, m2, d2)) :
    get_dropoffs_in_range2 db uid (some ss) (some es) =
      .ok (appStartUtc (toOrdinal y1 m1 d1)) (app2EndUtc (toOrdinal y2 m2 d2))
        (sortByTs (db.filter (rangeFilter (appStartUtc (toOrdinal y1 m1 d1))
          (app2EndUtc (toOrdinal y2 m2 d2)) uid))) := by
  have hp1 := presentStr_of_ne_nil (parseDate_ne_nil hs)
  have hp2 := presentStr_of_ne_nil (parseDate_ne_nil he)
  unfold get_dropoffs_in_range2
  rw [hp1, hp2]
  simp only [Bool.and_self, Bool.not_true, Bool.false_eq_true, if_false, Option.getD_some,
    hs, he]

theorem get_dropoffs_in_range_invalid {db : List Rec} {uid : Nat} {ss es : List Char}
    (hp1 : presentStr (some ss) = true) (hp2 : presentStr (some es) = true)
    (hbad : parseDate ss = none ∨ parseDate es = none) :
    get_dropoffs_in_range db uid (some ss) (some es) = .errInvalid := by
  unfold get_dropoffs_in_range
  rw [hp1, hp2]
  simp only [Bool.and_self, Bool.not_true, Bool.false_eq_true, if_false, Option.getD_some]
  rcases hbad with hbad | hbad <;> rw [hbad] <;>
    cases hother : parseDate es <;> cases hother2 : parseDate ss <;> rfl

theorem get_dropoffs_in_range2_invalid {db : List Rec} {uid : Nat} {ss es : List Char}
    (hp1 : presentStr (some ss) = true) (hp2 : presentStr (some es) = true)
    (hbad : parseDate ss = none ∨ parseDate es = none) :
    get_dropoffs_in_range2 db uid (some ss) (some es) = .errInvalid := by
  unfold get_dropoffs_in_range2
  rw [hp1, hp2]
  simp only [Bool.and_self, Bool.not_true, Bool.false_eq_true, if_false, Option.getD_some]
  rcases hbad with hbad | hbad <;> rw [hbad] <;>
    cases hother : parseDate es <;> cases hother2 : parseDate ss <;> rfl

theorem filter_rangeFilter_empty {su eu uid : Nat} (h : eu < su) (db : List Rec) :
    db.filter (rangeFilter su eu uid) = [] := by
  induction db with
  | nil => rfl
  | cons r rest ih =>
    have hr : rangeFilter su eu uid r = false := by
      by_cases h1 : su ≤ r.ts
      · have h2 : ¬(r.ts ≤ eu) := by omega
        simp [rangeFilter, h1, h2]
      · simp [rangeFilter, h1]
    simp [List.filter_cons, hr, ih]

/-! ## Record-store lemmas -/

theorem deleteFirst_sublist (p : Rec → Bool) (l : List Rec) :
    (deleteFirst p l).Sublist l := by
  induction l with
  | nil => simp [deleteFirst]
  | cons r rest ih =>
    unfold deleteFirst
    split
    · exact List.sublist_cons_self r rest
    · exact ih.cons₂ r

theorem deleteFirst_count {p : Rec → Bool} {r : Rec} (hr : p r = false) (l : List Rec) :
    (deleteFirst p l).count r = l.count r := by
  induction l with
  | nil => rfl
  | cons x rest ih =>
    unfold deleteFirst
    split
    next hx =>
      have hne : ¬(r = x) := by
        intro he
        subst he
        simp [hx] at hr
      simp [List.count_cons, hne]
    next hx =>
      simp [List.count_cons, ih]

theorem deleteFirst_length {p : Rec → Bool} (l : List Rec) :
    l.length ≤ (deleteFirst p l).length + 1 := by
  induction l with
  | nil => simp [deleteFirst]
  | cons x rest ih =>
    unfold deleteFirst
    split
    · simp
    · simp only [List.length_cons]
      omega

theorem find?_none_of_all {p : Rec → Bool} {l : List Rec} (h : ∀ r ∈ l, p r = false) :
    l.find? p = none := by
  induction l with
  | nil => rfl
  | cons x rest ih =>
    have hx := h x (List.mem_cons_self x rest)
    simp only [List.find?, hx]
    exact ih (fun r hr => h r (List.mem_cons_of_mem x hr))

/-! ## Claim theorems -/

/-- C1: the claim asserts that resolving the single-day range
2024-03-10..2024-03-10 produces a filter equivalent to the UTC window
[2024-03-10T08:00:00Z, 2024-03-11T07:00:00Z).  The code disagrees with
the spec here: app.py subtracts one *second* rather than one tick, so
its filter ends at 2024-03-11T06:59:59Z and rejects the in-window
record 2024-03-11T06:59:59.000001Z; app2.py omits the `+ 1 day`
entirely, ending at 2024-03-10T08:00:00.999999Z and rejecting the
in-window record 2024-03-10T12:00:00Z — contradicting its own comment
"ensure we include the entire day".  This theorem evaluates both
routes on the failing inputs. -/
theorem claim_c1_code_eval :
    get_dropoffs_in_range [⟨1, 7, [], mkUtc 2024 3 11 6 59 59 1⟩] 7
        (some ("2024-03-10".data)) (some ("2024-03-10".data)) =
      .ok (mkUtc 2024 3 10 8 0 0 0) (mkUtc 2024 3 11 6 59 59 0) [] ∧
    mkUtc 2024 3 10 8 0 0 0 ≤ mkUtc 2024 3 11 6 59 59 1 ∧
    mkUtc 2024 3 11 6 59 59 1 < mkUtc 2024 3 11 7 0 0 0 ∧
    get_dropoffs_in_range2 [⟨2, 7, [], mkUtc 2024 3 10 12 0 0 0⟩] 7
        (some ("2024-03-10".data)) (some ("2024-03-10".data)) =
      .ok (mkUtc 2024 3 10 8 0 0 0) (mkUtc 2024 3 10 8 0 0 999999) [] ∧
    mkUtc 2024 3 10 8 0 0 0 ≤ mkUtc 2024 3 10 12 0 0 0 ∧
    mkUtc 2024 3 10 12 0 0 0 < mkUtc 2024 3 11 7 0 0 0 := by
  decide

/-- C2 counterexample: app2.py's `UTCDateTime.process_result_value`
does *not* normalize to UTC on read: a naive stored value for
2024-01-01T00:00:00Z comes back converted to the display zone with an
8-hour (west) offset, not offset zero. -/
theorem claim_c2_counterexample :
    process_result_value2 (some (.naive (mkUtc 2024 1 1 0 0 0 0))) =
      some (.aware ⟨mkUtc 2023 12 31 16 0 0 0, 8 * usPerHour⟩) ∧
    isUtcAware (process_result_value2 (some (.naive (mkUtc 2024 1 1 0 0 0 0)))) = false := by
  decide

/-- C2 amended: every non-null value read back is timezone-aware in
both implementations; app.py's `process_result_value` normalizes it to
UTC (offset zero), while app2.py's converts it to the display zone
(offset 7 or 8 hours west of UTC). -/
theorem claim_c2_amended (v : Option PyDT) (hv : v ≠ none) :
    (∃ dt : AwareDT, process_result_value v = some (.aware dt) ∧ dt.offWest = 0) ∧
    (∃ dt : AwareDT, process_result_value2 v = some (.aware dt) ∧
      (dt.offWest = 7 * usPerHour ∨ dt.offWest = 8 * usPerHour)) := by
  rcases v with _ | w
  · exact absurd rfl hv
  rcases w with w | d
  · constructor
    · exact ⟨⟨w, 0⟩, rfl, rfl⟩
    · refine ⟨astimezoneDisplay ⟨w, 0⟩, rfl, ?_⟩
      unfold astimezoneDisplay offWestAt
      split <;> simp
  · constructor
    · exact ⟨astimezoneUtc d, rfl, rfl⟩
    · refine ⟨astimezoneDisplay d, rfl, ?_⟩
      unfold astimezoneDisplay offWestAt
      split <;> simp

/-- C2 amended, witnessed at a concrete stored value. -/
theorem claim_c2_witness :
    (∃ dt : AwareDT, process_result_value (some (.naive 5)) = some (.aware dt) ∧
      dt.offWest = 0) ∧
    (∃ dt : AwareDT, process_result_value2 (some (.naive 5)) = some (.aware dt) ∧
      (dt.offWest = 7 * usPerHour ∨ dt.offWest = 8 * usPerHour)) :=
  claim_c2_amended (some (.naive 5)) (by simp)

/-- C3: for any valid range (start ≤ end, as ordinals) both routes'
filters accept a record of the requesting user stamped exactly at the
UTC image of the start date's local midnight, and reject one stamped
one microsecond earlier. -/
theorem claim_c3_boundary {o1 o2 uid : Nat} (ho : 1 ≤ o1) (hle : o1 ≤ o2)
    (r rp : Rec) (hu : r.uid = uid) (hts : r.ts = appStartUtc o1)
    (hup : rp.uid = uid) (htsp : rp.ts = appStartUtc o1 - 1) :
    rangeFilter (appStartUtc o1) (appEndUtc o2) uid r = true ∧
    rangeFilter (appStartUtc o1) (app2EndUtc o2) uid r = true ∧
    rangeFilter (appStartUtc o1) (appEndUtc o2) uid rp = false ∧
    rangeFilter (appStartUtc o1) (app2EndUtc o2) uid rp = false := by
  have h1 := appStart_le_appEnd ho hle
  have h2 := appStart_le_app2End ho hle
  have h3 := appStart_pos o1
  have hlt : ¬(appStartUtc o1 ≤ appStartUtc o1 - 1) := by omega
  refine ⟨?_, ?_, ?_, ?_⟩
  · simp [rangeFilter, hu, hts, h1]
  · simp [rangeFilter, hu, hts, h2]
  · simp [rangeFilter, hup, htsp, hlt]
  · simp [rangeFilter, hup, htsp, hlt]

/-- C3, witnessed on the two-day range of ordinals 2..3. -/
theorem claim_c3_witness :
    rangeFilter (appStartUtc 2) (appEndUtc 3) 9 ⟨1, 9, [], appStartUtc 2⟩ = true ∧
    rangeFilter (appStartUtc 2) (app2EndUtc 3) 9 ⟨1, 9, [], appStartUtc 2⟩ = true ∧
    rangeFilter (appStartUtc 2) (appEndUtc 3) 9 ⟨2, 9, [], appStartUtc 2 - 1⟩ = false ∧
    rangeFilter (appStartUtc 2) (app2EndUtc 3) 9 ⟨2, 9, [], appStartUtc 2 - 1⟩ = false :=
  @claim_c3_boundary 2 3 9 (by decide) (by decide)
    ⟨1, 9, [], appStartUtc 2⟩ ⟨2, 9, [], appStartUtc 2 - 1⟩ rfl rfl rfl rfl

/-- C4: the dashboard bucketer emits its groups in strictly descending
local-date order; within each group records are sorted by timestamp
ascending; and the sort is stable — for every timestamp value the
subsequence of records carrying it equals the input-order subsequence. -/
theorem claim_c4_dashboard (rs : List Rec) :
    ((dashboardBuckets rs).map Prod.fst).Pairwise (fun a b => b < a) ∧
    (∀ p ∈ dashboardBuckets rs, p.2.Pairwise (fun a b => a.ts ≤ b.ts)) ∧
    (∀ p ∈ dashboardBuckets rs, ∀ c : Nat,
      p.2.filter (fun r => r.ts == c) =
        (rs.filter (fun r => localDateOf r.ts == p.1)).filter (fun r => r.ts == c)) := by
  refine ⟨?_, ?_, ?_⟩
  · have hmap : (dashboardBuckets rs).map Prod.fst = datesDesc rs := by
      unfold dashboardBuckets
      generalize datesDesc rs = L
      induction L with
      | nil => rfl
      | cons dd ds ih => simp_all
    rw [hmap]
    unfold datesDesc
    exact sortDescNat_strictDesc (List.nodup_dedup _)
  · intro p hp
    unfold dashboardBuckets at hp
    rcases List.mem_map.mp hp with ⟨dte, hd, hpe⟩
    subst hpe
    exact sortByTs_pairwise _
  · intro p hp c
    unfold dashboardBuckets at hp
    rcases List.mem_map.mp hp with ⟨dte, hd, hpe⟩
    subst hpe
    exact sortByTs_filter c _

/-- C4, witnessed on a store with two equal-timestamp records (checking
stability) and a later-day record. -/
theorem claim_c4_witness :
    ((dashboardBuckets [(⟨1, 1, [], 8 * usPerHour + usPerDay⟩ : Rec),
        ⟨2, 1, [], 8 * usPerHour⟩, ⟨3, 1, [], 8 * usPerHour⟩]).map Prod.fst).Pairwise
      (fun a b => b < a) ∧
    ((1 : Nat), [(⟨1, 1, [], 8 * usPerHour + usPerDay⟩ : Rec)]).2.filter
        (fun r => r.ts == 8 * usPerHour + usPerDay) =
      ([(⟨1, 1, [], 8 * usPerHour + usPerDay⟩ : Rec), ⟨2, 1, [], 8 * usPerHour⟩,
        ⟨3, 1, [], 8 * usPerHour⟩].filter (fun r => localDateOf r.ts == 1)).filter
        (fun r => r.ts == 8 * usPerHour + usPerDay) :=
  ⟨(claim_c4_dashboard _).1,
    (claim_c4_dashboard [⟨1, 1, [], 8 * usPerHour + usPerDay⟩, ⟨2, 1, [], 8 * usPerHour⟩,
      ⟨3, 1, [], 8 * usPerHour⟩]).2.2 (1, [⟨1, 1, [], 8 * usPerHour + usPerDay⟩])
      (by decide) (8 * usPerHour + usPerDay)⟩

/-- C5: an instant that is exactly a local midnight buckets to the day
whose midnight it is; concretely, with the 2024 daylight offset UTC-7,
2024-06-01T06:59:59Z buckets to 2024-05-31 and 2024-06-01T07:00:01Z to
2024-06-01. -/
theorem claim_c5_midnight (t o : Nat) (ho : 1 ≤ o) (ht : toDisplayWall t = wallMidnight o) :
    localDateOf t = o - 1 ∧
    localDateOf (mkUtc 2024 6 1 6 59 59 0) = toOrdinal 2024 5 31 - 1 ∧
    localDateOf (mkUtc 2024 6 1 7 0 1 0) = toOrdinal 2024 6 1 - 1 := by
  refine ⟨?_, by decide, by decide⟩
  unfold localDateOf
  rw [ht]
  unfold wallMidnight
  simp only [usPerDay, usPerHour, usPerMin, usPerSec]
  omega

/-- C5, witnessed at the exact local midnight of 2024-06-01
(2024-06-01T07:00:00Z). -/
theorem claim_c5_witness :
    localDateOf (mkUtc 2024 6 1 7 0 0 0) = toOrdinal 2024 6 1 - 1 ∧
    localDateOf (mkUtc 2024 6 1 6 59 59 0) = toOrdinal 2024 5 31 - 1 ∧
    localDateOf (mkUtc 2024 6 1 7 0 1 0) = toOrdinal 2024 6 1 - 1 :=
  claim_c5_midnight (mkUtc 2024 6 1 7 0 0 0) (toOrdinal 2024 6 1) (by decide) (by decide)

/-- C6: with both date strings present, an unparseable one makes both
routes answer the invalid-date validation failure (the `errInvalid`
response carries no range and no records by construction); when both
parse, neither route produces that failure. -/
theorem claim_c6_validation (ss es : List Char) (db : List Rec) (uid : Nat)
    (hp1 : presentStr (some ss) = true) (hp2 : presentStr (some es) = true) :
    ((parseDate ss = none ∨ parseDate es = none) →
      get_dropoffs_in_range db uid (some ss) (some es) = .errInvalid ∧
      get_dropoffs_in_range2 db uid (some ss) (some es) = .errInvalid) ∧
    (∀ v w : Nat × Nat × Nat, parseDate ss = some v → parseDate es = some w →
      get_dropoffs_in_range db uid (some ss) (some es) ≠ .errInvalid ∧
      get_dropoffs_in_range2 db uid (some ss) (some es) ≠ .errInvalid) := by
  constructor
  · intro hbad
    exact ⟨get_dropoffs_in_range_invalid hp1 hp2 hbad,
      get_dropoffs_in_range2_invalid hp1 hp2 hbad⟩
  · rintro ⟨y1, m1, d1⟩ ⟨y2, m2, d2⟩ hs he
    rw [get_dropoffs_in_range_eq hs he, get_dropoffs_in_range2_eq hs he]
    exact ⟨fun hcon => RouteResult.noConfusion hcon,
      fun hcon => RouteResult.noConfusion hcon⟩

/-- C6, witnessed with the unparseable month "13". -/
theorem claim_c6_witness :
    get_dropoffs_in_range [] 4 (some ("2024-13-01".data)) (some ("2024-01-02".data)) =
      .errInvalid ∧
    get_dropoffs_in_range2 [] 4 (some ("2024-13-01".data)) (some ("2024-01-02".data)) =
      .errInvalid :=
  (claim_c6_validation ("2024-13-01".data) ("2024-01-02".data) [] 4
    (by decide) (by decide)).1 (Or.inl (by decide))

/-- C7: an inverted range (start strictly after end) is not rejected —
both routes still answer success — but the resolved UTC interval is
empty (start bound strictly above end bound) and the record list is
empty for every store and user. -/
theorem claim_c7_inverted (ss es : List Char) (y1 m1 d1 y2 m2 d2 : Nat)
    (db : List Rec) (uid : Nat)
    (hs : parseDate ss = some (y1, m1, d1)) (he : parseDate es = some (y2, m2, d2))
    (hlt : toOrdinal y2 m2 d2 < toOrdinal y1 m1 d1) :
    get_dropoffs_in_range db uid (some ss) (some es) =
      .ok (appStartUtc (toOrdinal y1 m1 d1)) (appEndUtc (toOrdinal y2 m2 d2)) [] ∧
    appEndUtc (toOrdinal y2 m2 d2) < appStartUtc (toOrdinal y1 m1 d1) ∧
    get_dropoffs_in_range2 db uid (some ss) (some es) =
      .ok (appStartUtc (toOrdinal y1 m1 d1)) (app2EndUtc (toOrdinal y2 m2 d2)) [] ∧
    app2EndUtc (toOrdinal y2 m2 d2) < appStartUtc (toOrdinal y1 m1 d1) := by
  have hd2 := parseDate_day_pos he
  have ho2 : 1 ≤ toOrdinal y2 m2 d2 := toOrdinal_pos_of_day_pos hd2
  have hend := appEnd_lt_appStart ho2 hlt
  have hend2 := app2End_lt_appStart ho2 hlt
  refine ⟨?_, hend, ?_, hend2⟩
  · rw [get_dropoffs_in_range_eq hs he, filter_rangeFilter_empty hend]
    rfl
  · rw [get_dropoffs_in_range2_eq hs he, filter_rangeFilter_empty hend2]
    rfl

/-- C7, witnessed on the specification's scenario
`resolveRange("2024-01-05","2024-01-03")`, with a mid-range record in
the store. -/
theorem claim_c7_witness :
    get_dropoffs_in_range [⟨1, 3, [], mkUtc 2024 1 4 12 0 0 0⟩] 3
        (some ("2024-01-05".data)) (some ("2024-01-03".data)) =
      .ok (appStartUtc (toOrdinal 2024 1 5)) (appEndUtc (toOrdinal 2024 1 3)) [] ∧
    appEndUtc (toOrdinal 2024 1 3) < appStartUtc (toOrdinal 2024 1 5) ∧
    get_dropoffs_in_range2 [⟨1, 3, [], mkUtc 2024 1 4 12 0 0 0⟩] 3
        (some ("2024-01-05".data)) (some ("2024-01-03".data)) =
      .ok (appStartUtc (toOrdinal 2024 1 5)) (app2EndUtc (toOrdinal 2024 1 3)) [] ∧
    app2EndUtc (toOrdinal 2024 1 3) < appStartUtc (toOrdinal 2024 1 5) :=
  claim_c7_inverted ("2024-01-05".data) ("2024-01-03".data) 2024 1 5 2024 1 3
    [⟨1, 3, [], mkUtc 2024 1 4 12 0 0 0⟩] 3 (by decide) (by decide) (by decide)

/-- C8: projecting a UTC instant to the display zone, pushing the aware
value through `process_bind_param` (which re-normalizes it to UTC), and
projecting again reproduces the same local datetime. -/
theorem claim_c8_roundtrip (i : Nat) (h : 8 * usPerHour ≤ i) :
    displayOfStored (process_bind_param (some (.aware (astimezoneDisplay ⟨i, 0⟩)))) =
      some (.aware (astimezoneDisplay ⟨i, 0⟩)) := by
  have hoff := offWestAt_bounds i
  have hinst : instOf (astimezoneDisplay ⟨i, 0⟩) = i := by
    simp [astimezoneDisplay, instOf]
    omega
  simp only [process_bind_param, astimezoneUtc, hinst, displayOfStored]

/-- C8, witnessed at 2024-06-01T12:00:00Z. -/
theorem claim_c8_witness :
    displayOfStored (process_bind_param (some (.aware
        (astimezoneDisplay ⟨mkUtc 2024 6 1 12 0 0 0, 0⟩)))) =
      some (.aware (astimezoneDisplay ⟨mkUtc 2024 6 1 12 0 0 0, 0⟩)) :=
  claim_c8_roundtrip (mkUtc 2024 6 1 12 0 0 0) (by decide)

/-- C9: whatever app2's `add_tracking` persists is the input stripped
to its digits, truncated to the last 12 when more remain; hence it is
all digits and, when the input held at least 12 digits, at most 12
characters long. -/
theorem claim_c9_add_tracking (input : Option (List Char)) (existing : List (List Char))
    (st : List Char) (h : add_tracking input existing = some st) :
    st = cleanTracking (input.getD []) ∧ st.all Char.isDigit = true ∧
    (12 ≤ ((input.getD []).filter Char.isDigit).length → st.length ≤ 12) := by
  rcases input with _ | s
  · simp [add_tracking] at h
  · simp only [Option.getD_some]
    have h2 : add_tracking (some s) existing =
        if s.isEmpty then none
        else (if existing.contains (cleanTracking s) then none
          else some (cleanTracking s)) := rfl
    rw [h2] at h
    split at h
    · simp at h
    · split at h
      · simp at h
      · simp only [Option.some.injEq] at h
        subst h
        refine ⟨rfl, ?_, ?_⟩
        · rw [List.all_eq_true]
          intro r hr
          unfold cleanTracking at hr
          split at hr
          · exact List.of_mem_filter (List.mem_of_mem_drop hr)
          · exact List.of_mem_filter hr
        · intro hlen
          unfold cleanTracking
          split
          next hgt =>
            rw [List.length_drop]
            omega
          next hle => omega

/-- C9, witnessed on a 15-digit input with separator characters. -/
theorem claim_c9_witness :
    "456789012345".data = cleanTracking ((some ("12-3456789012345".data)).getD []) ∧
    ("456789012345".data).all Char.isDigit = true ∧
    (12 ≤ (((some ("12-3456789012345".data)).getD []).filter Char.isDigit).length →
      ("456789012345".data).length ≤ 12) :=
  claim_c9_add_tracking (some ("12-3456789012345".data)) [] ("456789012345".data)
    (by decide)

/-- C10: `delete_tracking` removes at most the single record with the
given id owned by the requester: with no such record the store is
returned unchanged with the not-found/no-permission flash (`false`);
in all cases the result is a sublist of the store, every record not
matching id-and-owner keeps its multiplicity, and at most one record
is removed. -/
theorem claim_c10_delete (store : List Rec) (uidReq tid : Nat) :
    ((∀ r ∈ store, ¬(r.rid = tid ∧ r.uid = uidReq)) →
      delete_tracking store uidReq tid = (store, false)) ∧
    (delete_tracking store uidReq tid).1.Sublist store ∧
    (∀ r : Rec, ¬(r.rid = tid ∧ r.uid = uidReq) →
      (delete_tracking store uidReq tid).1.count r = store.count r) ∧
    store.length ≤ (delete_tracking store uidReq tid).1.length + 1 := by
  refine ⟨?_, ?_, ?_, ?_⟩
  · intro hall
    have hnone : store.find? (fun r => r.rid == tid && r.uid == uidReq) = none := by
      apply find?_none_of_all
      intro r hr
      show (r.rid == tid && r.uid == uidReq) = false
      cases hb : (r.rid == tid && r.uid == uidReq) with
      | false => rfl
      | true =>
        exfalso
        simp only [Bool.and_eq_true, beq_iff_eq] at hb
        exact hall r hr hb
    unfold delete_tracking
    rw [hnone]
  · unfold delete_tracking
    cases hfind : store.find? (fun r => r.rid == tid && r.uid == uidReq) with
    | none => exact List.Sublist.refl store
    | some r0 => exact deleteFirst_sublist _ store
  · intro r hnr
    have hb : (fun rr : Rec => rr.rid == tid && rr.uid == uidReq) r = false := by
      show (r.rid == tid && r.uid == uidReq) = false
      cases hb2 : (r.rid == tid && r.uid == uidReq) with
      | false => rfl
      | true =>
        exfalso
        simp only [Bool.and_eq_true, beq_iff_eq] at hb2
        exact hnr hb2
    unfold delete_tracking
    cases hfind : store.find? (fun rr => rr.rid == tid && rr.uid == uidReq) with
    | none => rfl
    | some r0 => exact deleteFirst_count hb store
  · unfold delete_tracking
    cases hfind : store.find? (fun rr => rr.rid == tid && rr.uid == uidReq) with
    | none => exact Nat.le_succ _
    | some r0 => exact deleteFirst_length store

/-- C10, witnessed on a store whose only record belongs to another
user. -/
theorem claim_c10_witness :
    delete_tracking [(⟨1, 2, [], 0⟩ : Rec)] 3 1 = ([(⟨1, 2, [], 0⟩ : Rec)], false) :=
  (claim_c10_delete [⟨1, 2, [], 0⟩] 3 1).1 (by decide)
